import Mathlib

/-
Shallow embedding of src/recognizeEq.c (the second, authoritative version in
the file: the equation recognizer with exponent handling, variable counting
and the degree-reporting driver).

Modelling conventions:
- A C token list `List` is a Lean `List Token`; a cursor `List *lp` passed by
  reference becomes an explicit input list, and the updated cursor is part of
  the returned tuple ("pointer to remaining suffix").
- The token payloads: `Number` carries a `double`, modelled as a rational;
  `Identifier` carries a string; `Symbol` carries a character.
- The global accumulator `int biggestExponent` is threaded explicitly as a
  `ℤ` argument and result through every function that can read or write it.
- A C function returning `int` as a boolean flag returns a Lean `Bool`.
- The C conversion from `double` to `int` (in `biggestExponent = *wp;`)
  truncates toward zero; `ratTrunc` models exactly that.
-/

namespace RecognizeEq

/-- Tokens produced by the scanner: numbers (payload `double`, modelled as a
rational), identifiers (payload string) and single-character symbols. -/
inductive Token
  | number (value : ℚ)
  | identifier (name : String)
  | symbol (c : Char)
deriving DecidableEq, Repr

open Token

/-- C's `(int)d` conversion for a `double` `d`: truncation toward zero. -/
def ratTrunc (q : ℚ) : ℤ := if q < 0 then ⌈q⌉ else ⌊q⌋

/-- `int acceptNumber(List *lp)`: if the first token is a Number, consume it
and return 1; otherwise return 0 and leave the cursor unchanged. -/
def acceptNumber : List Token → Bool × List Token
  | number _ :: rest => (true, rest)
  | l => (false, l)

/-- `int acceptIdentifier(List *lp)`: if the first token is an Identifier,
consume it and return 1; otherwise return 0 and leave the cursor unchanged. -/
def acceptIdentifier : List Token → Bool × List Token
  | identifier _ :: rest => (true, rest)
  | l => (false, l)

/-- `int acceptCharacter(List *lp, char c)`: if the first token is the Symbol
`c`, consume it and return 1; otherwise return 0, cursor unchanged. -/
def acceptCharacter : List Token → Char → Bool × List Token
  | symbol c0 :: rest, c => if c0 = c then (true, rest) else (false, symbol c0 :: rest)
  | l, _ => (false, l)

/-- `int valueNumber(List *lp, double *wp)`: if the first token is a Number,
store its value in `*wp`, consume it, and raise `biggestExponent` to the
(truncated) value when the untruncated value exceeds the current maximum;
return 1.  Otherwise return 0 with cursor, `*wp` and accumulator unchanged.
Result: (flag, cursor, wp, biggestExponent). -/
def valueNumber : List Token → ℚ → ℤ → Bool × List Token × ℚ × ℤ
  | number v :: rest, _, acc =>
      (true, rest, v, if (acc : ℚ) < v then ratTrunc v else acc)
  | l, wp, acc => (false, l, wp, acc)

/-- `int acceptExponent(List *lp)`: a missing `'^'` is a zero-consumption
success; after `'^'`, a `'-'` (negative exponent) fails, otherwise the result
is `valueNumber` on the rest (the local `double wp = 0` is dead storage).
Result: (flag, cursor, biggestExponent). -/
def acceptExponent (l : List Token) (acc : ℤ) : Bool × List Token × ℤ :=
  match acceptCharacter l '^' with
  | (true, l1) =>
    match acceptCharacter l1 '-' with
    | (true, l2) => (false, l2, acc)
    | (false, _) =>
      match valueNumber l1 0 acc with
      | (b, l2, _, acc2) => (b, l2, acc2)
  | (false, _) => (true, l, acc)

/-- `int acceptTerm(List *lp)`: number [identifier [exponent]] | identifier
[exponent]. -/
def acceptTerm (l : List Token) (acc : ℤ) : Bool × List Token × ℤ :=
  match acceptNumber l with
  | (true, l1) =>
    match acceptIdentifier l1 with
    | (true, l2) => acceptExponent l2 acc
    | (false, _) => (true, l1, acc)
  | (false, _) =>
    match acceptIdentifier l with
    | (true, l1) => acceptExponent l1 acc
    | (false, _) => (false, l, acc)

theorem acceptNumber_suffix (l : List Token) : (acceptNumber l).2 <:+ l := by
  cases l with
  | nil => exact List.suffix_rfl
  | cons t rest => cases t <;> simp [acceptNumber]

theorem acceptIdentifier_suffix (l : List Token) : (acceptIdentifier l).2 <:+ l := by
  cases l with
  | nil => exact List.suffix_rfl
  | cons t rest => cases t <;> simp [acceptIdentifier]

theorem acceptCharacter_suffix (l : List Token) (c : Char) :
    (acceptCharacter l c).2 <:+ l := by
  cases l with
  | nil => exact List.suffix_rfl
  | cons t rest =>
    cases t with
    | number v => exact List.suffix_rfl
    | identifier n => exact List.suffix_rfl
    | symbol c0 => by_cases h : c0 = c <;> simp [acceptCharacter, h]

theorem valueNumber_suffix (l : List Token) (wp : ℚ) (acc : ℤ) :
    (valueNumber l wp acc).2.1 <:+ l := by
  cases l with
  | nil => exact List.suffix_rfl
  | cons t rest => cases t <;> simp [valueNumber]

theorem acceptExponent_suffix (l : List Token) (acc : ℤ) :
    (acceptExponent l acc).2.1 <:+ l := by
  have h1 := acceptCharacter_suffix l '^'
  rcases hc : acceptCharacter l '^' with ⟨b1, l1⟩
  rw [hc] at h1
  cases b1 with
  | false => simp [acceptExponent, hc]
  | true =>
    have h2 := acceptCharacter_suffix l1 '-'
    rcases hm : acceptCharacter l1 '-' with ⟨b2, l2⟩
    rw [hm] at h2
    cases b2 with
    | true =>
      simp only [acceptExponent, hc, hm]
      exact h2.trans h1
    | false =>
      have h3 := valueNumber_suffix l1 0 acc
      rcases hv : valueNumber l1 0 acc with ⟨b3, l3, w3, a3⟩
      rw [hv] at h3
      simp only [acceptExponent, hc, hm, hv]
      exact h3.trans h1

theorem acceptTerm_suffix (l : List Token) (acc : ℤ) :
    (acceptTerm l acc).2.1 <:+ l := by
  have h1 := acceptNumber_suffix l
  rcases hn : acceptNumber l with ⟨b1, l1⟩
  rw [hn] at h1
  cases b1 with
  | true =>
    have h2 := acceptIdentifier_suffix l1
    rcases hi : acceptIdentifier l1 with ⟨b2, l2⟩
    rw [hi] at h2
    cases b2 with
    | true =>
      simp only [acceptTerm, hn, hi]
      exact ((acceptExponent_suffix l2 acc).trans h2).trans h1
    | false =>
      simp only [acceptTerm, hn, hi]
      exact h1
  | false =>
    have h3 := acceptIdentifier_suffix l
    rcases hi : acceptIdentifier l with ⟨b2, l2⟩
    rw [hi] at h3
    cases b2 with
    | true =>
      simp only [acceptTerm, hn, hi]
      exact (acceptExponent_suffix l2 acc).trans h3
    | false => simp [acceptTerm, hn, hi]

theorem acceptCharacter_true_length {l l1 : List Token} {c : Char}
    (h : acceptCharacter l c = (true, l1)) : l1.length < l.length := by
  cases l with
  | nil => simp [acceptCharacter] at h
  | cons t rest =>
    cases t with
    | number v => simp [acceptCharacter] at h
    | identifier n => simp [acceptCharacter] at h
    | symbol c0 =>
      by_cases hc : c0 = c <;> simp [acceptCharacter, hc] at h
      subst h
      simp

/-- The while loop in `acceptExpression`: while a `'+'` or `'-'` is consumed,
require a term; exit successfully when neither sign is present. -/
def exprLoop (l : List Token) (acc : ℤ) : Bool × List Token × ℤ :=
  match hp : acceptCharacter l '+' with
  | (true, l1) =>
    match ht : acceptTerm l1 acc with
    | (false, l2, a2) => (false, l2, a2)
    | (true, l2, a2) => exprLoop l2 a2
  | (false, _) =>
    match hm : acceptCharacter l '-' with
    | (true, l1) =>
      match ht : acceptTerm l1 acc with
      | (false, l2, a2) => (false, l2, a2)
      | (true, l2, a2) => exprLoop l2 a2
    | (false, _) => (true, l, acc)
termination_by l.length
decreasing_by
  · have hlen : l1.length < l.length := acceptCharacter_true_length hp
    have hterm := acceptTerm_suffix l1 acc
    rw [ht] at hterm
    exact Nat.lt_of_le_of_lt hterm.length_le hlen
  · have hlen : l1.length < l.length := acceptCharacter_true_length hm
    have hterm := acceptTerm_suffix l1 acc
    rw [ht] at hterm
    exact Nat.lt_of_le_of_lt hterm.length_le hlen

theorem exprLoop_step_plus {l l1 : List Token} {acc : ℤ} {r : Bool × List Token × ℤ}
    (hp : acceptCharacter l '+' = (true, l1)) (ht : acceptTerm l1 acc = r) :
    exprLoop l acc = (match r with
      | (false, l2, a2) => (false, l2, a2)
      | (true, l2, a2) => exprLoop l2 a2) := by
  conv_lhs => rw [exprLoop.eq_def]
  split
  · next l1h heq =>
    rw [hp] at heq
    injection heq with h1 h2
    subst h2
    split
    · next l2h a2h heq2 =>
      rw [ht] at heq2
      subst heq2
      rfl
    · next l2h a2h heq2 =>
      rw [ht] at heq2
      subst heq2
      rfl
  · next s heq =>
    rw [hp] at heq
    simp at heq

theorem exprLoop_step_minus {l l1 s : List Token} {acc : ℤ} {r : Bool × List Token × ℤ}
    (hp : acceptCharacter l '+' = (false, s))
    (hm : acceptCharacter l '-' = (true, l1)) (ht : acceptTerm l1 acc = r) :
    exprLoop l acc = (match r with
      | (false, l2, a2) => (false, l2, a2)
      | (true, l2, a2) => exprLoop l2 a2) := by
  conv_lhs => rw [exprLoop.eq_def]
  split
  · next l1h heq =>
    rw [hp] at heq
    simp at heq
  · next sh heq =>
    split
    · next l1h heq2 =>
      rw [hm] at heq2
      injection heq2 with h1 h2
      subst h2
      split
      · next l2h a2h heq3 =>
        rw [ht] at heq3
        subst heq3
        rfl
      · next l2h a2h heq3 =>
        rw [ht] at heq3
        subst heq3
        rfl
    · next sh2 heq2 =>
      rw [hm] at heq2
      simp at heq2

theorem exprLoop_plus_fail {l l1 l2 : List Token} {acc a2 : ℤ}
    (hp : acceptCharacter l '+' = (true, l1))
    (ht : acceptTerm l1 acc = (false, l2, a2)) :
    exprLoop l acc = (false, l2, a2) :=
  exprLoop_step_plus hp ht

theorem exprLoop_plus_ok {l l1 l2 : List Token} {acc a2 : ℤ}
    (hp : acceptCharacter l '+' = (true, l1))
    (ht : acceptTerm l1 acc = (true, l2, a2)) :
    exprLoop l acc = exprLoop l2 a2 :=
  exprLoop_step_plus hp ht

theorem exprLoop_minus_fail {l l1 s l2 : List Token} {acc a2 : ℤ}
    (hp : acceptCharacter l '+' = (false, s))
    (hm : acceptCharacter l '-' = (true, l1))
    (ht : acceptTerm l1 acc = (false, l2, a2)) :
    exprLoop l acc = (false, l2, a2) :=
  exprLoop_step_minus hp hm ht

theorem exprLoop_minus_ok {l l1 s l2 : List Token} {acc a2 : ℤ}
    (hp : acceptCharacter l '+' = (false, s))
    (hm : acceptCharacter l '-' = (true, l1))
    (ht : acceptTerm l1 acc = (true, l2, a2)) :
    exprLoop l acc = exprLoop l2 a2 :=
  exprLoop_step_minus hp hm ht

theorem exprLoop_none {l s s2 : List Token} (acc : ℤ)
    (hp : acceptCharacter l '+' = (false, s))
    (hm : acceptCharacter l '-' = (false, s2)) :
    exprLoop l acc = (true, l, acc) := by
  conv_lhs => rw [exprLoop.eq_def]
  split
  · next l1h heq =>
    rw [hp] at heq
    simp at heq
  · next sh heq =>
    split
    · next l1h heq2 =>
      rw [hm] at heq2
      simp at heq2
    · next sh2 heq2 => rfl

/-- `int acceptExpression(List *lp)`: optional leading `'-'`, a first term,
then the sign/term loop. -/
def acceptExpression (l : List Token) (acc : ℤ) : Bool × List Token × ℤ :=
  match acceptCharacter l '-' with
  | (true, l1) =>
    match acceptTerm l1 acc with
    | (false, l2, a2) => (false, l2, a2)
    | (true, l2, a2) => exprLoop l2 a2
  | (false, _) =>
    match acceptTerm l acc with
    | (false, l2, a2) => (false, l2, a2)
    | (true, l2, a2) => exprLoop l2 a2

/-- `int acceptEquation(List *lp)`:
`acceptExpression(lp) && acceptCharacter(lp,'=') && acceptExpression(lp)`,
short-circuiting left to right. -/
def acceptEquation (l : List Token) (acc : ℤ) : Bool × List Token × ℤ :=
  match acceptExpression l acc with
  | (false, l1, a1) => (false, l1, a1)
  | (true, l1, a1) =>
    match acceptCharacter l1 '=' with
    | (false, l2) => (false, l2, a1)
    | (true, l2) => acceptExpression l2 a1

/-- Loop body of `int determineVariables(List lp)`: `string` is the retained
first-seen identifier spelling (`char *string`, `NULL` modelled as `none`).
On the first identifier the C code stores its spelling and the immediate
`strcmp` of the spelling with itself is 0, so the scan continues; any later
identifier whose spelling differs from the stored one returns 2.  After the
loop: 0 when no identifier was ever seen, otherwise 1. -/
def detVarsLoop : List Token → Option String → ℕ
  | [], none => 0
  | [], some _ => 1
  | identifier n :: rest, none => detVarsLoop rest (some n)
  | identifier n :: rest, some s =>
      if s ≠ n then 2 else detVarsLoop rest (some s)
  | _ :: rest, s => detVarsLoop rest s

/-- `int determineVariables(List lp)`: read-only scan classifying the token
list as 0 (no variables), 1 (one variable) or 2 (more than one variable). -/
def determineVariables (l : List Token) : ℕ := detVarsLoop l none

/-- What one iteration of the driver loop in `recognizeEquations` prints for
one input line. -/
inductive Report
  | oneVarDeg1
  | oneVarDeg (d : ℤ)
  | eqNotOneVar
  | notAnEquation
deriving DecidableEq, Repr

/-- One iteration of the driver loop of `void recognizeEquations()` on the
token list `tl` of one input line, with `biggestExponent` equal to `acc` on
entry.  Returns what is printed and the value of `biggestExponent` after the
iteration (the C code resets it to 0 only in the one-variable branch). -/
def processLine (tl : List Token) (acc : ℤ) : Report × ℤ :=
  let r := acceptEquation tl acc
  if r.1 = true ∧ r.2.1 = [] then
    if determineVariables tl = 1 then
      (if r.2.2 = 0 then Report.oneVarDeg1 else Report.oneVarDeg r.2.2, 0)
    else (Report.eqNotOneVar, r.2.2)
  else (Report.notAnEquation, r.2.2)

/-- The driver loop of `void recognizeEquations()` over a whole session: the
token lists of the successive input lines, processed with the global
`biggestExponent` (initially 0 at program start) carried from one line to the
next.  Returns the reports in order. -/
def recognizeEquations : List (List Token) → ℤ → List Report
  | [], _ => []
  | tl :: rest, acc =>
    (processLine tl acc).1 :: recognizeEquations rest (processLine tl acc).2

theorem le_ratTrunc_of_lt {z : ℤ} {q : ℚ} (h : (z : ℚ) < q) : z ≤ ratTrunc q := by
  unfold ratTrunc
  split
  · have hq : (z : ℚ) ≤ (⌈q⌉ : ℚ) := h.le.trans (Int.le_ceil q)
    exact_mod_cast hq
  · exact Int.le_floor.mpr h.le

theorem valueNumber_acc_mono (l : List Token) (wp : ℚ) (acc : ℤ) :
    acc ≤ (valueNumber l wp acc).2.2.2 := by
  cases l with
  | nil => simp [valueNumber]
  | cons t rest =>
    cases t with
    | number v =>
      simp only [valueNumber]
      split
      · exact le_ratTrunc_of_lt (by assumption)
      · exact le_refl acc
    | identifier n => simp [valueNumber]
    | symbol c => simp [valueNumber]

theorem acceptExponent_acc_mono (l : List Token) (acc : ℤ) :
    acc ≤ (acceptExponent l acc).2.2 := by
  rcases hc : acceptCharacter l '^' with ⟨b1, l1⟩
  cases b1 with
  | false => simp [acceptExponent, hc]
  | true =>
    rcases hm : acceptCharacter l1 '-' with ⟨b2, l2⟩
    cases b2 with
    | true => simp [acceptExponent, hc, hm]
    | false =>
      have h := valueNumber_acc_mono l1 0 acc
      rcases hv : valueNumber l1 0 acc with ⟨b3, l3, w3, a3⟩
      rw [hv] at h
      simp only [acceptExponent, hc, hm, hv]
      exact h

theorem acceptTerm_acc_mono (l : List Token) (acc : ℤ) :
    acc ≤ (acceptTerm l acc).2.2 := by
  rcases hn : acceptNumber l with ⟨b1, l1⟩
  cases b1 with
  | true =>
    rcases hi : acceptIdentifier l1 with ⟨b2, l2⟩
    cases b2 with
    | true => simpa only [acceptTerm, hn, hi] using acceptExponent_acc_mono l2 acc
    | false => simp [acceptTerm, hn, hi]
  | false =>
    rcases hi : acceptIdentifier l with ⟨b2, l2⟩
    cases b2 with
    | true => simpa only [acceptTerm, hn, hi] using acceptExponent_acc_mono l2 acc
    | false => simp [acceptTerm, hn, hi]

theorem exprLoop_acc_mono (l : List Token) (acc : ℤ) :
    acc ≤ (exprLoop l acc).2.2 := by
  induction l, acc using exprLoop.induct with
  | case1 l acc l1 hp l2 a2 ht =>
    have h := acceptTerm_acc_mono l1 acc
    rw [ht] at h
    rw [exprLoop_plus_fail hp ht]
    exact h
  | case2 l acc l1 hp l2 a2 ht ih =>
    have h := acceptTerm_acc_mono l1 acc
    rw [ht] at h
    rw [exprLoop_plus_ok hp ht]
    exact h.trans ih
  | case3 l acc s hp l1 hm l2 a2 ht =>
    have h := acceptTerm_acc_mono l1 acc
    rw [ht] at h
    rw [exprLoop_minus_fail hp hm ht]
    exact h
  | case4 l acc s hp l1 hm l2 a2 ht ih =>
    have h := acceptTerm_acc_mono l1 acc
    rw [ht] at h
    rw [exprLoop_minus_ok hp hm ht]
    exact h.trans ih
  | case5 l acc s hp s2 hm =>
    rw [exprLoop_none acc hp hm]

theorem acceptExpression_acc_mono (l : List Token) (acc : ℤ) :
    acc ≤ (acceptExpression l acc).2.2 := by
  rcases hs : acceptCharacter l '-' with ⟨b1, l1⟩
  cases b1 with
  | true =>
    rcases ht : acceptTerm l1 acc with ⟨b2, l2, a2⟩
    have h := acceptTerm_acc_mono l1 acc
    rw [ht] at h
    cases b2 with
    | false =>
      simp only [acceptExpression, hs, ht]
      exact h
    | true =>
      simp only [acceptExpression, hs, ht]
      exact h.trans (exprLoop_acc_mono l2 a2)
  | false =>
    rcases ht : acceptTerm l acc with ⟨b2, l2, a2⟩
    have h := acceptTerm_acc_mono l acc
    rw [ht] at h
    cases b2 with
    | false =>
      simp only [acceptExpression, hs, ht]
      exact h
    | true =>
      simp only [acceptExpression, hs, ht]
      exact h.trans (exprLoop_acc_mono l2 a2)

theorem acceptEquation_acc_mono (l : List Token) (acc : ℤ) :
    acc ≤ (acceptEquation l acc).2.2 := by
  rcases he : acceptExpression l acc with ⟨b1, l1, a1⟩
  have h1 := acceptExpression_acc_mono l acc
  rw [he] at h1
  cases b1 with
  | false =>
    simp only [acceptEquation, he]
    exact h1
  | true =>
    rcases hc : acceptCharacter l1 '=' with ⟨b2, l2⟩
    cases b2 with
    | false =>
      simp only [acceptEquation, he, hc]
      exact h1
    | true =>
      simp only [acceptEquation, he, hc]
      exact h1.trans (acceptExpression_acc_mono l2 a1)

theorem acceptExponent_noCaret {l : List Token} (acc : ℤ)
    (h : ∀ t ∈ l, t ≠ Token.symbol '^') : acceptExponent l acc = (true, l, acc) := by
  have hc : acceptCharacter l '^' = (false, l) := by
    cases l with
    | nil => rfl
    | cons t rest =>
      cases t with
      | number v => rfl
      | identifier n => rfl
      | symbol c0 =>
        have hne : c0 ≠ '^' := by
          intro hcc
          exact h (symbol c0) (List.mem_cons_self _ _) (by rw [hcc])
        simp [acceptCharacter, hne]
  simp [acceptExponent, hc]

theorem acceptTerm_noCaret {l : List Token} (acc : ℤ)
    (h : ∀ t ∈ l, t ≠ Token.symbol '^') : (acceptTerm l acc).2.2 = acc := by
  rcases hn : acceptNumber l with ⟨b1, l1⟩
  have hs1 := acceptNumber_suffix l
  rw [hn] at hs1
  cases b1 with
  | true =>
    rcases hi : acceptIdentifier l1 with ⟨b2, l2⟩
    have hs2 := acceptIdentifier_suffix l1
    rw [hi] at hs2
    cases b2 with
    | true =>
      have h2 : ∀ t ∈ l2, t ≠ Token.symbol '^' :=
        fun t ht => h t (hs1.subset (hs2.subset ht))
      simp [acceptTerm, hn, hi, acceptExponent_noCaret acc h2]
    | false => simp [acceptTerm, hn, hi]
  | false =>
    rcases hi : acceptIdentifier l with ⟨b2, l2⟩
    have hs2 := acceptIdentifier_suffix l
    rw [hi] at hs2
    cases b2 with
    | true =>
      have h2 : ∀ t ∈ l2, t ≠ Token.symbol '^' :=
        fun t ht => h t (hs2.subset ht)
      simp [acceptTerm, hn, hi, acceptExponent_noCaret acc h2]
    | false => simp [acceptTerm, hn, hi]

theorem exprLoop_noCaret (l : List Token) (acc : ℤ)
    (h : ∀ t ∈ l, t ≠ Token.symbol '^') : (exprLoop l acc).2.2 = acc := by
  induction l, acc using exprLoop.induct with
  | case1 l acc l1 hp l2 a2 ht =>
    have hs1 := acceptCharacter_suffix l '+'
    rw [hp] at hs1
    have hterm := acceptTerm_noCaret acc (fun t hm2 => h t (hs1.subset hm2))
    rw [ht] at hterm
    rw [exprLoop_plus_fail hp ht]
    exact hterm
  | case2 l acc l1 hp l2 a2 ht ih =>
    have hs1 := acceptCharacter_suffix l '+'
    rw [hp] at hs1
    have hs2 := acceptTerm_suffix l1 acc
    rw [ht] at hs2
    have hterm := acceptTerm_noCaret acc (fun t hm2 => h t (hs1.subset hm2))
    rw [ht] at hterm
    have h2 : ∀ t ∈ l2, t ≠ Token.symbol '^' :=
      fun t hm2 => h t (hs1.subset (hs2.subset hm2))
    rw [exprLoop_plus_ok hp ht, ih h2]
    exact hterm
  | case3 l acc s hp l1 hm l2 a2 ht =>
    have hs1 := acceptCharacter_suffix l '-'
    rw [hm] at hs1
    have hterm := acceptTerm_noCaret acc (fun t hm2 => h t (hs1.subset hm2))
    rw [ht] at hterm
    rw [exprLoop_minus_fail hp hm ht]
    exact hterm
  | case4 l acc s hp l1 hm l2 a2 ht ih =>
    have hs1 := acceptCharacter_suffix l '-'
    rw [hm] at hs1
    have hs2 := acceptTerm_suffix l1 acc
    rw [ht] at hs2
    have hterm := acceptTerm_noCaret acc (fun t hm2 => h t (hs1.subset hm2))
    rw [ht] at hterm
    have h2 : ∀ t ∈ l2, t ≠ Token.symbol '^' :=
      fun t hm2 => h t (hs1.subset (hs2.subset hm2))
    rw [exprLoop_minus_ok hp hm ht, ih h2]
    exact hterm
  | case5 l acc s hp s2 hm => rw [exprLoop_none acc hp hm]

theorem acceptExpression_noCaret (l : List Token) (acc : ℤ)
    (h : ∀ t ∈ l, t ≠ Token.symbol '^') : (acceptExpression l acc).2.2 = acc := by
  rcases hs : acceptCharacter l '-' with ⟨b1, l1⟩
  have hsuf := acceptCharacter_suffix l '-'
  rw [hs] at hsuf
  cases b1 with
  | true =>
    have hsub : ∀ t ∈ l1, t ≠ Token.symbol '^' := fun t hm => h t (hsuf.subset hm)
    rcases ht : acceptTerm l1 acc with ⟨b2, l2, a2⟩
    have hterm := acceptTerm_noCaret acc hsub
    rw [ht] at hterm
    have hs2 := acceptTerm_suffix l1 acc
    rw [ht] at hs2
    cases b2 with
    | false =>
      simp only [acceptExpression, hs, ht]
      exact hterm
    | true =>
      have h2 : ∀ t ∈ l2, t ≠ Token.symbol '^' :=
        fun t hm => hsub t (hs2.subset hm)
      simp only [acceptExpression, hs, ht]
      rw [exprLoop_noCaret l2 a2 h2]
      exact hterm
  | false =>
    rcases ht : acceptTerm l acc with ⟨b2, l2, a2⟩
    have hterm := acceptTerm_noCaret acc h
    rw [ht] at hterm
    have hs2 := acceptTerm_suffix l acc
    rw [ht] at hs2
    cases b2 with
    | false =>
      simp only [acceptExpression, hs, ht]
      exact hterm
    | true =>
      have h2 : ∀ t ∈ l2, t ≠ Token.symbol '^' :=
        fun t hm => h t (hs2.subset hm)
      simp only [acceptExpression, hs, ht]
      rw [exprLoop_noCaret l2 a2 h2]
      exact hterm

theorem exprLoop_suffix (l : List Token) (acc : ℤ) :
    (exprLoop l acc).2.1 <:+ l := by
  induction l, acc using exprLoop.induct with
  | case1 l acc l1 hp l2 a2 ht =>
    have hs1 := acceptCharacter_suffix l '+'
    rw [hp] at hs1
    have hs2 := acceptTerm_suffix l1 acc
    rw [ht] at hs2
    rw [exprLoop_plus_fail hp ht]
    exact hs2.trans hs1
  | case2 l acc l1 hp l2 a2 ht ih =>
    have hs1 := acceptCharacter_suffix l '+'
    rw [hp] at hs1
    have hs2 := acceptTerm_suffix l1 acc
    rw [ht] at hs2
    rw [exprLoop_plus_ok hp ht]
    exact (ih.trans hs2).trans hs1
  | case3 l acc s hp l1 hm l2 a2 ht =>
    have hs1 := acceptCharacter_suffix l '-'
    rw [hm] at hs1
    have hs2 := acceptTerm_suffix l1 acc
    rw [ht] at hs2
    rw [exprLoop_minus_fail hp hm ht]
    exact hs2.trans hs1
  | case4 l acc s hp l1 hm l2 a2 ht ih =>
    have hs1 := acceptCharacter_suffix l '-'
    rw [hm] at hs1
    have hs2 := acceptTerm_suffix l1 acc
    rw [ht] at hs2
    rw [exprLoop_minus_ok hp hm ht]
    exact (ih.trans hs2).trans hs1
  | case5 l acc s hp s2 hm =>
    rw [exprLoop_none acc hp hm]

theorem acceptExpression_suffix (l : List Token) (acc : ℤ) :
    (acceptExpression l acc).2.1 <:+ l := by
  rcases hs : acceptCharacter l '-' with ⟨b1, l1⟩
  have hsuf := acceptCharacter_suffix l '-'
  rw [hs] at hsuf
  cases b1 with
  | true =>
    rcases ht : acceptTerm l1 acc with ⟨b2, l2, a2⟩
    have hs2 := acceptTerm_suffix l1 acc
    rw [ht] at hs2
    cases b2 with
    | false =>
      simp only [acceptExpression, hs, ht]
      exact hs2.trans hsuf
    | true =>
      simp only [acceptExpression, hs, ht]
      exact ((exprLoop_suffix l2 a2).trans hs2).trans hsuf
  | false =>
    rcases ht : acceptTerm l acc with ⟨b2, l2, a2⟩
    have hs2 := acceptTerm_suffix l acc
    rw [ht] at hs2
    cases b2 with
    | false =>
      simp only [acceptExpression, hs, ht]
      exact hs2
    | true =>
      simp only [acceptExpression, hs, ht]
      exact (exprLoop_suffix l2 a2).trans hs2

theorem acceptEquation_noCaret (l : List Token) (acc : ℤ)
    (h : ∀ t ∈ l, t ≠ Token.symbol '^') : (acceptEquation l acc).2.2 = acc := by
  rcases he : acceptExpression l acc with ⟨b1, l1, a1⟩
  have h1 := acceptExpression_noCaret l acc h
  rw [he] at h1
  have hsuf := acceptExpression_suffix l acc
  rw [he] at hsuf
  cases b1 with
  | false =>
    simp only [acceptEquation, he]
    exact h1
  | true =>
    rcases hc : acceptCharacter l1 '=' with ⟨b2, l2⟩
    have hsuf2 := acceptCharacter_suffix l1 '='
    rw [hc] at hsuf2
    cases b2 with
    | false =>
      simp only [acceptEquation, he, hc]
      exact h1
    | true =>
      have h2 : ∀ t ∈ l2, t ≠ Token.symbol '^' :=
        fun t hm => h t (hsuf.subset (hsuf2.subset hm))
      simp only [acceptEquation, he, hc]
      rw [acceptExpression_noCaret l2 a1 h2]
      exact h1

/-- The identifier spellings occurring in a token list, in order.  This is a
specification-side helper, used only to state what `determineVariables`
computes about the token list. -/
def identNames : List Token → List String
  | [] => []
  | identifier n :: rest => n :: identNames rest
  | _ :: rest => identNames rest

theorem detVarsLoop_some_eq (l : List Token) (s : String) :
    detVarsLoop l (some s) =
      if ∀ m ∈ identNames l, m = s then 1 else 2 := by
  induction l generalizing s with
  | nil => simp [detVarsLoop, identNames]
  | cons t rest ih =>
    cases t with
    | number v => simp [detVarsLoop, identNames, ih]
    | symbol c => simp [detVarsLoop, identNames, ih]
    | identifier n =>
      by_cases hn : s = n
      · subst hn
        simp [detVarsLoop, identNames, ih]
      · have hn2 : n ≠ s := fun h => hn h.symm
        simp [detVarsLoop, identNames, hn, hn2]

theorem acceptNumber_rejected (l : List Token) :
    (acceptNumber l).1 = false → (acceptNumber l).2 = l := by
  intro h
  cases l with
  | nil => rfl
  | cons t rest => cases t <;> first | rfl | simp [acceptNumber] at h

theorem acceptIdentifier_rejected (l : List Token) :
    (acceptIdentifier l).1 = false → (acceptIdentifier l).2 = l := by
  intro h
  cases l with
  | nil => rfl
  | cons t rest => cases t <;> first | rfl | simp [acceptIdentifier] at h

theorem acceptCharacter_rejected (l : List Token) (c : Char) :
    (acceptCharacter l c).1 = false → (acceptCharacter l c).2 = l := by
  intro h
  cases l with
  | nil => rfl
  | cons t rest =>
    cases t with
    | number v => rfl
    | identifier n => rfl
    | symbol c0 =>
      by_cases hc : c0 = c
      · simp [acceptCharacter, hc] at h
      · simp [acceptCharacter, hc]

/-- C1 counterexample: `acceptEquation` can return rejected having advanced
the cursor.  On the token list for "1 2" it consumes the first number as an
expression, fails to find '=', and reports rejection with the cursor left on
the second token, not restored to the start. -/
theorem claim1_counterexample :
    acceptEquation [number 1, number 2] 0 = (false, [number 2], 0)
    ∧ ([number 2] : List Token) ≠ [number 1, number 2] := by
  constructor
  · simp [acceptEquation, acceptExpression, exprLoop, acceptTerm, acceptExponent,
      acceptNumber, acceptIdentifier, acceptCharacter, valueNumber]
  · simp

/-- C1 (amended): only the primitive matchers `acceptNumber`,
`acceptIdentifier` and `acceptCharacter` are guaranteed to leave the cursor
unchanged when they return rejected; the compound matchers (including
`acceptEquation`) may reject with the cursor advanced. -/
theorem claim1_amended (l : List Token) (c : Char) :
    ((acceptNumber l).1 = false → (acceptNumber l).2 = l)
    ∧ ((acceptIdentifier l).1 = false → (acceptIdentifier l).2 = l)
    ∧ ((acceptCharacter l c).1 = false → (acceptCharacter l c).2 = l) :=
  ⟨acceptNumber_rejected l, acceptIdentifier_rejected l, acceptCharacter_rejected l c⟩

/-- C1 witness: the amended statement instantiated on the one-token list "="
(where all three primitive matchers reject, the character matcher being asked
for '+'). -/
theorem claim1_witness :
    (acceptNumber [symbol '=']).2 = [symbol '=']
    ∧ (acceptIdentifier [symbol '=']).2 = [symbol '=']
    ∧ (acceptCharacter [symbol '='] '+').2 = [symbol '='] :=
  ⟨(claim1_amended [symbol '='] '+').1 (by decide),
   (claim1_amended [symbol '='] '+').2.1 (by decide),
   (claim1_amended [symbol '='] '+').2.2 (by decide)⟩

/-- C3: one driver iteration reports the line as a valid equation (that is,
anything other than "this is not an equation") iff `acceptEquation` accepted
and the cursor was exhausted afterwards; a prefix-only match with trailing
tokens is reported invalid. -/
theorem claim3_valid_iff_accepted_and_exhausted (tl : List Token) (acc : ℤ) :
    (processLine tl acc).1 ≠ Report.notAnEquation
      ↔ ((acceptEquation tl acc).1 = true ∧ (acceptEquation tl acc).2.1 = []) := by
  by_cases h : (acceptEquation tl acc).1 = true ∧ (acceptEquation tl acc).2.1 = []
  · simp only [processLine, if_pos h]
    refine iff_of_true ?_ h
    by_cases hd : determineVariables tl = 1
    · simp only [if_pos hd]
      split <;> simp
    · simp only [if_neg hd]
      simp
  · simp only [processLine, if_neg h]
    simpa using h

/-- C4: `acceptEquation` accepts exactly when an expression, the symbol '=',
and a second expression are matched in sequence; the conjunction
short-circuits, so when an earlier step fails the result is exactly the state
of the failing step and no later step runs (in particular an expression
without '=' is not accepted). -/
theorem claim4_equation_sequence (l : List Token) (acc : ℤ) :
    ((acceptEquation l acc).1 = true ↔
      ((acceptExpression l acc).1 = true
        ∧ (acceptCharacter (acceptExpression l acc).2.1 '=').1 = true
        ∧ (acceptExpression (acceptCharacter (acceptExpression l acc).2.1 '=').2
            (acceptExpression l acc).2.2).1 = true))
    ∧ ((acceptExpression l acc).1 = false →
        acceptEquation l acc = acceptExpression l acc)
    ∧ ((acceptExpression l acc).1 = true →
        (acceptCharacter (acceptExpression l acc).2.1 '=').1 = false →
        acceptEquation l acc =
          (false, (acceptExpression l acc).2.1, (acceptExpression l acc).2.2)) := by
  rcases he : acceptExpression l acc with ⟨b1, l1, a1⟩
  cases b1 with
  | false =>
    refine ⟨?_, ?_, ?_⟩
    · simp [acceptEquation, he]
    · intro _
      simp [acceptEquation, he]
    · intro h
      simp at h
  | true =>
    rcases hc : acceptCharacter l1 '=' with ⟨b2, l2⟩
    cases b2 with
    | false =>
      have hl2 : l2 = l1 := by
        have hr := acceptCharacter_rejected l1 '='
        rw [hc] at hr
        exact hr rfl
      subst hl2
      refine ⟨?_, ?_, ?_⟩
      · simp [acceptEquation, he, hc]
      · intro h
        simp at h
      · intro _ _
        simp [acceptEquation, he, hc]
    | true =>
      refine ⟨?_, ?_, ?_⟩
      · simp [acceptEquation, he, hc]
      · intro h
        simp at h
      · intro _ hfalse
        simp [hc] at hfalse

/-- C4 witness: the short-circuit clauses instantiated on "=" (the first
expression fails, so the result is the expression failure itself) and on "3"
(an expression with no '=' after it, rejected with the cursor after the
expression). -/
theorem claim4_witness :
    acceptEquation [symbol '='] 0 = acceptExpression [symbol '='] 0
    ∧ acceptEquation [number 3] 0 =
        (false, (acceptExpression [number 3] 0).2.1, (acceptExpression [number 3] 0).2.2) :=
  ⟨(claim4_equation_sequence [symbol '='] 0).2.1
      (by simp [acceptExpression, acceptTerm, acceptNumber, acceptIdentifier, acceptCharacter]),
   (claim4_equation_sequence [number 3] 0).2.2
      (by simp [acceptExpression, exprLoop, acceptTerm, acceptExponent, acceptNumber,
        acceptIdentifier, acceptCharacter])
      (by simp [acceptExpression, exprLoop, acceptTerm, acceptExponent, acceptNumber,
        acceptIdentifier, acceptCharacter])⟩

/-- C10: on the empty token list, acceptNumber, acceptIdentifier,
acceptCharacter, acceptTerm, acceptExpression and acceptEquation all return
rejected without moving the cursor, while acceptExponent returns accepted as
a zero-consumption success. -/
theorem claim10_empty_list (acc : ℤ) (c : Char) :
    acceptNumber [] = (false, [])
    ∧ acceptIdentifier [] = (false, [])
    ∧ acceptCharacter [] c = (false, [])
    ∧ acceptTerm [] acc = (false, [], acc)
    ∧ acceptExpression [] acc = (false, [], acc)
    ∧ acceptEquation [] acc = (false, [], acc)
    ∧ acceptExponent [] acc = (true, [], acc) :=
  ⟨rfl, rfl, rfl, rfl, rfl, rfl, rfl⟩

/-- C5: acceptExponent returns accepted consuming nothing when the next token
is not '^'; after a '^' it fails when a '-' follows (negative exponent),
succeeds consuming a following Number token (updating the accumulator), and
fails when neither follows (including end of input); consequently the token
list of "x^-2=0" is rejected as an equation. -/
theorem claim5_exponent_matcher (l rest : List Token) (acc : ℤ) (v : ℚ) (t : Token) :
    ((acceptCharacter l '^').1 = false → acceptExponent l acc = (true, l, acc))
    ∧ acceptExponent (symbol '^' :: symbol '-' :: rest) acc = (false, rest, acc)
    ∧ acceptExponent (symbol '^' :: number v :: rest) acc =
        (true, rest, if (acc : ℚ) < v then ratTrunc v else acc)
    ∧ ((∀ u : ℚ, t ≠ number u) → t ≠ symbol '-' →
        acceptExponent (symbol '^' :: t :: rest) acc = (false, t :: rest, acc))
    ∧ acceptExponent [symbol '^'] acc = (false, [], acc)
    ∧ (acceptEquation [identifier "x", symbol '^', symbol '-', number 2,
        symbol '=', number 0] 0).1 = false := by
  refine ⟨?_, ?_, ?_, ?_, ?_, ?_⟩
  · intro h
    rcases hc : acceptCharacter l '^' with ⟨b1, l1⟩
    rw [hc] at h
    cases b1 with
    | true => simp at h
    | false => simp [acceptExponent, hc]
  · simp [acceptExponent, acceptCharacter]
  · simp [acceptExponent, acceptCharacter, valueNumber]
  · intro hnum hminus
    have hm : acceptCharacter (t :: rest) '-' = (false, t :: rest) := by
      cases t with
      | number u => rfl
      | identifier n => rfl
      | symbol c0 =>
        have hne : c0 ≠ '-' := fun h0 => hminus (by rw [h0])
        simp [acceptCharacter, hne]
    have hv : valueNumber (t :: rest) 0 acc = (false, t :: rest, 0, acc) := by
      cases t with
      | number u => exact absurd rfl (hnum u)
      | identifier n => rfl
      | symbol c0 => rfl
    have hcar : acceptCharacter (symbol '^' :: t :: rest) '^' = (true, t :: rest) := by
      simp [acceptCharacter]
    simp [acceptExponent, hcar, hm, hv]
  · simp [acceptExponent, acceptCharacter, valueNumber]
  · simp [acceptEquation, acceptExpression, exprLoop, acceptTerm, acceptExponent,
      acceptNumber, acceptIdentifier, acceptCharacter, valueNumber]

/-- C5 witness: the hypothesis-bearing clauses instantiated concretely: on a
number token (not '^') the exponent matcher is a zero-consumption success,
and after '^' a token that is neither a number nor '-' (here '=') fails. -/
theorem claim5_witness :
    acceptExponent [number 7] 0 = (true, [number 7], 0)
    ∧ acceptExponent [symbol '^', symbol '=', number 1] 0 =
        (false, [symbol '=', number 1], 0) :=
  ⟨(claim5_exponent_matcher [number 7] [] 0 0 (symbol '=')).1 (by decide),
   (claim5_exponent_matcher [] [number 1] 0 0 (symbol '=')).2.2.2.1
      (by simp) (by simp)⟩

/-- C6: determineVariables returns 0 iff the list contains no Identifier
token, 2 iff some identifier spelling differs from the first identifier's
spelling, and 1 otherwise (an identifier occurs and every identifier spelling
equals the first one). -/
theorem claim6_variable_classification (l : List Token) :
    (determineVariables l = 0 ↔ identNames l = [])
    ∧ (determineVariables l = 2 ↔ ∃ m ∈ identNames l, (identNames l).head? ≠ some m)
    ∧ (determineVariables l = 1 ↔
        identNames l ≠ [] ∧ ∀ m ∈ identNames l, (identNames l).head? = some m) := by
  induction l with
  | nil => simp [determineVariables, detVarsLoop, identNames]
  | cons t rest ih =>
    cases t with
    | number v => simpa [determineVariables, detVarsLoop, identNames] using ih
    | symbol c => simpa [determineVariables, detVarsLoop, identNames] using ih
    | identifier n =>
      have hkey : determineVariables (identifier n :: rest) =
          if ∀ m ∈ identNames rest, m = n then 1 else 2 := by
        simp [determineVariables, detVarsLoop, detVarsLoop_some_eq]
      have hnames : identNames (identifier n :: rest) = n :: identNames rest := rfl
      by_cases hall : ∀ m ∈ identNames rest, m = n
      · rw [hkey, if_pos hall]
        refine ⟨by simp [hnames], ?_, ?_⟩
        · rw [hnames]
          refine iff_of_false (by simp) ?_
          rintro ⟨m, hm, hne⟩
          rcases List.mem_cons.mp hm with h1 | h1
          · exact hne (by simp [h1])
          · exact hne (by simp [hall m h1])
        · rw [hnames]
          refine iff_of_true rfl ⟨by simp, ?_⟩
          intro m hm
          rcases List.mem_cons.mp hm with h1 | h1
          · simp [h1]
          · simp [hall m h1]
      · rw [hkey, if_neg hall]
        push_neg at hall
        rcases hall with ⟨m, hm, hne⟩
        refine ⟨by simp [hnames], ?_, ?_⟩
        · rw [hnames]
          refine iff_of_true rfl ⟨m, List.mem_cons_of_mem _ hm, ?_⟩
          intro hcontra
          exact hne (Option.some.inj hcontra).symm
        · rw [hnames]
          refine iff_of_false (by simp) ?_
          rintro ⟨h1, h2⟩
          have := h2 m (List.mem_cons_of_mem _ hm)
          exact hne (Option.some.inj this).symm

/-- C9: valueNumber compares the untruncated numeric payload against the
integer accumulator and, on update, stores the payload truncated toward zero
into the accumulator; in particular the exponent token 2.5 exceeding the
current maximum 0 records the maximum as 2, not 2.5. -/
theorem claim9_truncated_store (rest : List Token) (wp : ℚ) (acc : ℤ) (v : ℚ) :
    ((acc : ℚ) < v →
      valueNumber (number v :: rest) wp acc = (true, rest, v, ratTrunc v))
    ∧ (¬ (acc : ℚ) < v →
      valueNumber (number v :: rest) wp acc = (true, rest, v, acc))
    ∧ valueNumber [number (5/2)] wp 0 = (true, [], 5/2, 2) := by
  refine ⟨?_, ?_, ?_⟩
  · intro h
    simp [valueNumber, if_pos h]
  · intro h
    simp [valueNumber, if_neg h]
  · have h1 : ((0 : ℤ) : ℚ) < 5/2 := by norm_num
    have h2 : ratTrunc (5/2) = 2 := by
      have hnn : ¬ ((5/2 : ℚ) < 0) := by norm_num
      rw [ratTrunc, if_neg hnn]
      rw [Int.floor_eq_iff]
      norm_num
    simp [valueNumber, if_pos h1, h2]

/-- C9 witness: the comparison clauses applied at concrete inputs: payload
2.5 against accumulator 2 (untruncated comparison still triggers the update,
storing the truncation 2), and payload 2 against accumulator 3 (no update). -/
theorem claim9_witness :
    valueNumber [number (5/2)] 0 2 = (true, [], 5/2, ratTrunc (5/2))
    ∧ valueNumber [number 2] 0 3 = (true, [], 2, 3) :=
  ⟨(claim9_truncated_store [] 0 2 (5/2)).1 (by norm_num),
   (claim9_truncated_store [] 0 3 2).2.1 (by norm_num)⟩

set_option maxRecDepth 8000 in
/-- C2: the driver resets `biggestExponent` only in the accepted-one-variable
branch, so the accumulator does not read 0 before the next equation when the
previous accepted equation had more than one variable.  Evaluating the driver
on the two lines "x^3+y=0" and "x=0": after the first (accepted, two
variables, exponent 3) the accumulator still holds 3, and the second is
consequently reported as degree 3 instead of degree 1. -/
theorem claim2_reset_skipped_for_multivariable_line :
    recognizeEquations
        [[identifier "x", symbol '^', number 3, symbol '+', identifier "y",
          symbol '=', number 0],
         [identifier "x", symbol '=', number 0]] 0 =
      [Report.eqNotOneVar, Report.oneVarDeg 3]
    ∧ (processLine [identifier "x", symbol '^', number 3, symbol '+',
        identifier "y", symbol '=', number 0] 0).2 = 3 := by
  constructor
  · simp [recognizeEquations, processLine, determineVariables, detVarsLoop,
      acceptEquation, acceptExpression, exprLoop, acceptTerm, acceptExponent,
      acceptNumber, acceptIdentifier, acceptCharacter, valueNumber, ratTrunc]
  · simp [processLine, determineVariables, detVarsLoop,
      acceptEquation, acceptExpression, exprLoop, acceptTerm, acceptExponent,
      acceptNumber, acceptIdentifier, acceptCharacter, valueNumber, ratTrunc]

set_option maxRecDepth 8000 in
/-- C7 counterexample: on the token list of "x^0=0" the equation is accepted
with one variable, an explicit '^' exponent clause was seen, the accumulated
maximum exponent is 0, and yet the driver reports "of degree 1" — not the
accumulated maximum 0 as the claim's second half demands. -/
theorem claim7_counterexample :
    (acceptEquation [identifier "x", symbol '^', number 0, symbol '=',
        number 0] 0).1 = true
    ∧ (acceptEquation [identifier "x", symbol '^', number 0, symbol '=',
        number 0] 0).2.1 = []
    ∧ determineVariables [identifier "x", symbol '^', number 0, symbol '=',
        number 0] = 1
    ∧ symbol '^' ∈ [identifier "x", symbol '^', number 0, symbol '=', number 0]
    ∧ (acceptEquation [identifier "x", symbol '^', number 0, symbol '=',
        number 0] 0).2.2 = 0
    ∧ (processLine [identifier "x", symbol '^', number 0, symbol '=',
        number 0] 0).1 = Report.oneVarDeg1
    ∧ Report.oneVarDeg1 ≠ Report.oneVarDeg 0 := by
  refine ⟨?_, ?_, ?_, ?_, ?_, ?_, ?_⟩ <;>
    simp [processLine, determineVariables, detVarsLoop,
      acceptEquation, acceptExpression, exprLoop, acceptTerm, acceptExponent,
      acceptNumber, acceptIdentifier, acceptCharacter, valueNumber, ratTrunc]

set_option maxRecDepth 4000 in
/-- C7 (amended): for every accepted, fully consumed, one-variable equation:
if its token sequence contains no '^' symbol the accumulator still holds its
reset value 0 after the parse and the driver reports degree 1; whenever the
accumulator ends at 0 the driver reports degree 1 (even if an explicit ^0
clause was seen), and whenever it ends nonzero the driver reports that
accumulated maximum as the degree. -/
theorem claim7_amended (tl : List Token)
    (hacc : (acceptEquation tl 0).1 = true)
    (hnil : (acceptEquation tl 0).2.1 = [])
    (hone : determineVariables tl = 1) :
    ((∀ t ∈ tl, t ≠ symbol '^') → (acceptEquation tl 0).2.2 = 0)
    ∧ ((acceptEquation tl 0).2.2 = 0 → (processLine tl 0).1 = Report.oneVarDeg1)
    ∧ ((acceptEquation tl 0).2.2 ≠ 0 →
        (processLine tl 0).1 = Report.oneVarDeg (acceptEquation tl 0).2.2) := by
  refine ⟨fun h => acceptEquation_noCaret tl 0 h, ?_, ?_⟩
  · intro hz
    simp [processLine, hacc, hnil, hone, hz]
  · intro hz
    simp [processLine, hacc, hnil, hone, hz]

set_option maxRecDepth 8000 in
/-- C7 witness: the amended statement applied to "x+5=0" (no '^' anywhere:
accumulator 0, reported degree 1) and to "x^3=0" (accumulator 3, reported
degree 3). -/
theorem claim7_witness :
    (acceptEquation [identifier "x", symbol '+', number 5, symbol '=',
        number 0] 0).2.2 = 0
    ∧ (processLine [identifier "x", symbol '+', number 5, symbol '=',
        number 0] 0).1 = Report.oneVarDeg1
    ∧ (processLine [identifier "x", symbol '^', number 3, symbol '=',
        number 0] 0).1 = Report.oneVarDeg 3 := by
  have h1 := claim7_amended
    [identifier "x", symbol '+', number 5, symbol '=', number 0]
    (by simp [acceptEquation, acceptExpression, exprLoop, acceptTerm,
      acceptExponent, acceptNumber, acceptIdentifier, acceptCharacter, valueNumber])
    (by simp [acceptEquation, acceptExpression, exprLoop, acceptTerm,
      acceptExponent, acceptNumber, acceptIdentifier, acceptCharacter, valueNumber])
    (by simp [determineVariables, detVarsLoop])
  have hz : (acceptEquation [identifier "x", symbol '+', number 5, symbol '=',
      number 0] 0).2.2 = 0 := h1.1 (by simp)
  have h2 := claim7_amended
    [identifier "x", symbol '^', number 3, symbol '=', number 0]
    (by simp [acceptEquation, acceptExpression, exprLoop, acceptTerm,
      acceptExponent, acceptNumber, acceptIdentifier, acceptCharacter, valueNumber,
      ratTrunc])
    (by simp [acceptEquation, acceptExpression, exprLoop, acceptTerm,
      acceptExponent, acceptNumber, acceptIdentifier, acceptCharacter, valueNumber,
      ratTrunc])
    (by simp [determineVariables, detVarsLoop])
  have hval : (acceptEquation [identifier "x", symbol '^', number 3, symbol '=',
      number 0] 0).2.2 = 3 := by
    simp [acceptEquation, acceptExpression, exprLoop, acceptTerm,
      acceptExponent, acceptNumber, acceptIdentifier, acceptCharacter, valueNumber,
      ratTrunc]
  refine ⟨hz, h1.2.1 hz, ?_⟩
  have h3 := h2.2.2 (by rw [hval]; norm_num)
  rw [h3, hval]

/-- C8: the accumulator never decreases during a parse: every matcher that
touches `biggestExponent` returns an accumulator at least as large as the one
it received, and valueNumber updates it exactly when the numeric value just
read exceeds the current maximum (leaving it unchanged otherwise). -/
theorem claim8_accumulator_monotone (l rest : List Token) (wp : ℚ) (acc : ℤ)
    (v : ℚ) :
    acc ≤ (valueNumber l wp acc).2.2.2
    ∧ acc ≤ (acceptExponent l acc).2.2
    ∧ acc ≤ (acceptTerm l acc).2.2
    ∧ acc ≤ (acceptExpression l acc).2.2
    ∧ acc ≤ (acceptEquation l acc).2.2
    ∧ ((acc : ℚ) < v → (valueNumber (number v :: rest) wp acc).2.2.2 = ratTrunc v)
    ∧ (¬ (acc : ℚ) < v → (valueNumber (number v :: rest) wp acc).2.2.2 = acc) := by
  refine ⟨valueNumber_acc_mono l wp acc, acceptExponent_acc_mono l acc,
    acceptTerm_acc_mono l acc, acceptExpression_acc_mono l acc,
    acceptEquation_acc_mono l acc, ?_, ?_⟩
  · intro h
    simp [valueNumber, if_pos h]
  · intro h
    simp [valueNumber, if_neg h]

/-- C8 witness: the update clauses applied at concrete inputs: value 3 above
maximum 0 updates the accumulator to 3, value 0 below maximum 5 leaves it at
5. -/
theorem claim8_witness :
    (valueNumber [number 3] 0 0).2.2.2 = ratTrunc 3
    ∧ (valueNumber [number 0] 0 5).2.2.2 = 5 :=
  ⟨(claim8_accumulator_monotone [] [] 0 0 3).2.2.2.2.2.1 (by norm_num),
   (claim8_accumulator_monotone [] [] 0 5 0).2.2.2.2.2.2 (by norm_num)⟩

end RecognizeEq
